/-
  Verification of the list-synchronization component of the Discogs
  metadata tagger (source files Window.py and FileData.py).

  The embedding models the stateful GUI component as explicit state
  passing: the owned file-path list (`added_files`), the treeview rows,
  the pending-title listbox, the `files_loaded` flag, the error popups
  shown so far, and an abstract on-disk tag store (the Tag Access
  Collaborator's view of the filesystem).  Every operation returns
  `Option St`: `none` models a Python exception escaping the operation
  (an uncaught fault), `some s` a normal completion in state `s`.
  User answers to confirmation dialogs are passed as arguments
  (`askyesno` yields a `Bool`; `askquestion` yields the *string*
  "yes"/"no", which the source tests with `if not ask:` -- modelled
  verbatim).
-/
import Mathlib

/-! ### Python string helpers -/

/-- Whitespace characters stripped by Python's `str.strip()` (the common
ASCII subset; exotic unicode whitespace is not modelled). -/
def isPyWs (c : Char) : Bool :=
  c = ' ' || c = '\t' || c = '\n' || c = '\r' || c = '\x0b' || c = '\x0c'

/-- Python `s.lstrip().rstrip()` (strip whitespace at both ends). -/
def pyStrip (s : String) : String :=
  String.mk (((s.toList.dropWhile isPyWs).reverse.dropWhile isPyWs).reverse)

/-- Python `s.rstrip(chars)` generalized over a character predicate. -/
def rstripBy (p : Char → Bool) (s : String) : String :=
  String.mk ((s.toList.reverse.dropWhile p).reverse)

/-- Python slicing `s[n:]` (drop the first `n` code points). -/
def pyDrop (n : Nat) (s : String) : String :=
  String.mk (s.toList.drop n)

/-- Helper for `pySplitChar`, working over character lists. -/
def splitCharAux (c : Char) : List Char → List (List Char)
  | [] => [[]]
  | x :: rest =>
    match splitCharAux c rest with
    | [] => [[x]]
    | h :: t => if x = c then [] :: h :: t else (x :: h) :: t

/-- Python `s.split(c)` for a single-character separator. -/
def pySplitChar (c : Char) (s : String) : List String :=
  (splitCharAux c s.toList).map (fun l => String.mk l)

/-- Python substring test `needle in haystack` over character lists. -/
def segIn : List Char → List Char → Bool
  | n, [] => n.isEmpty
  | n, c :: t => n.isPrefixOf (c :: t) || segIn n t

/-- Python `needle in haystack` on strings. -/
def strContains (hay needle : String) : Bool :=
  segIn needle.toList hay.toList

/-- `os.path.basename` (the component after the last slash). -/
def pyBasename (f : String) : String :=
  (pySplitChar '/' f).getLastD f

/-- Value of a nonempty all-digit character list, else `none`. -/
def digitsVal (ds : List Char) : Option Nat :=
  if ds.isEmpty then none
  else if ds.all Char.isDigit then
    some (ds.foldl (fun a c => a * 10 + (c.toNat - 48)) 0)
  else none

/-- Python `int(s)`: optional surrounding whitespace, optional sign,
decimal digits.  (Underscore separators and non-ASCII digits, which
CPython also accepts, are not modelled; no claim depends on them.) -/
def pyInt (s : String) : Option Int :=
  match (pyStrip s).toList with
  | [] => none
  | c :: rest =>
    if c = '-' then (digitsVal rest).map (fun n => -(n : Int))
    else if c = '+' then (digitsVal rest).map (fun n => (n : Int))
    else (digitsVal (c :: rest)).map (fun n => (n : Int))

/-! ### Tag store (mutagen's view of the files on disk) -/

/-- A loaded song's tag dictionary: tag name to value list (mutagen tags
are multi-valued). -/
def TagSet : Type := List (String × List String)

instance : DecidableEq TagSet := by
  unfold TagSet
  infer_instance

/-- Dictionary lookup `song[key]`; `none` models `KeyError`. -/
def tagGet : TagSet → String → Option (List String)
  | [], _ => none
  | (k, v) :: rest, key => if k = key then some v else tagGet rest key

/-- Dictionary update `song[key] = value` (mutagen stores a single
assigned string as a one-element list). -/
def setTag : TagSet → String → List String → TagSet
  | [], key, v => [(key, v)]
  | (k, w) :: rest, key, v =>
    if k = key then (key, v) :: rest else (k, w) :: setTag rest key v

/-- The on-disk state: path to tag set for each readable file.  A path
absent from the store is a file Mutagen fails to open (`MutagenError`). -/
def FS : Type := List (String × TagSet)

instance : DecidableEq FS := by
  unfold FS
  infer_instance

/-- Look a path up in the store. -/
def fsGet : FS → String → Option TagSet
  | [], _ => none
  | (p, t) :: rest, path => if p = path then some t else fsGet rest path

/-- `song.save()`: persist the updated tag set for a path. -/
def fsSave : FS → String → TagSet → FS
  | [], path, t => [(path, t)]
  | (p, w) :: rest, path, t =>
    if p = path then (path, t) :: rest else (p, w) :: fsSave rest path t

def extFlacLower : String := ".flac"
def extFlacUpper : String := ".FLAC"
def extMp3Lower : String := ".mp3"
def extMp3Upper : String := ".MP3"

/-- Loading a file through Mutagen, as done at the top of `ParseFile`,
`UpdateMetadata`, `UpdateTrackNumbers` and `UpdateTrackTitle`: the
format is recognized by substring match on the extension; an
unrecognized name or a `MutagenError` (path absent from the store)
yields `none`. -/
def loadSong (fs : FS) (file : String) : Option TagSet :=
  if strContains file extFlacLower || strContains file extFlacUpper then
    fsGet fs file
  else if strContains file extMp3Lower || strContains file extMp3Upper then
    fsGet fs file
  else none

/-! ### Treeview model -/

/-- One treeview row.  `iid` is the numeric part of the source's
`song<i>` item identifier; the remaining fields are the nine display
columns in order (`#1` .. `#9`).  The cosmetic even/odd stripe tag is
not modelled. -/
structure Row where
  iid : Nat
  trackNo : String
  filename : String
  title : String
  artist : String
  albumArtist : String
  album : String
  date : String
  genre : String
  publisher : String
deriving DecidableEq

/-- `tree.insert(..., iid=...)`: appends a row; tkinter raises
`TclError` when the item identifier already exists (`none`). -/
def treeInsert (rows : List Row) (r : Row) : Option (List Row) :=
  if rows.any (fun x => x.iid = r.iid) then none else some (rows ++ [r])

/-- Write one display column of a row; an unknown column identifier is a
`TclError` (`none`). -/
def setCol (r : Row) (col : String) (v : String) : Option Row :=
  match col with
  | "#1" => some { r with trackNo := v }
  | "#2" => some { r with filename := v }
  | "#3" => some { r with title := v }
  | "#4" => some { r with artist := v }
  | "#5" => some { r with albumArtist := v }
  | "#6" => some { r with album := v }
  | "#7" => some { r with date := v }
  | "#8" => some { r with genre := v }
  | "#9" => some { r with publisher := v }
  | _ => none

/-- `tree.set(iid, column, value)`.  A missing item, a `None` column
(the source passes `ConvertTagToCol`'s result straight through) or an
unknown column raises (`none`). -/
def treeSet (rows : List Row) (iid : Nat) (col : Option String) (v : String) :
    Option (List Row) :=
  match col with
  | none => none
  | some c =>
    match rows with
    | [] => none
    | r :: rest =>
      if r.iid = iid then (setCol r c v).map (fun r2 => r2 :: rest)
      else (treeSet rest iid (some c) v).map (fun t => r :: t)

/-- `tree.delete(iid)`: removes the row with that identifier; deleting a
missing item raises (`none`). -/
def treeDelete : List Row → Nat → Option (List Row)
  | [], _ => none
  | r :: rest, iid =>
    if r.iid = iid then some rest
    else (treeDelete rest iid).map (fun t => r :: t)

/-- Sequentially delete a list of item identifiers (the second loop of
`RemoveFiles`). -/
def deleteIids : List Row → List Nat → Option (List Row)
  | rows, [] => some rows
  | rows, iid :: rest =>
    match treeDelete rows iid with
    | none => none
    | some rows1 => deleteIids rows1 rest

/-- The first loop of `RemoveFiles`: `tree_contents[index]` for each
index, collecting item identifiers; an out-of-range index raises
(`none`). -/
def getIids (rows : List Row) : List Nat → Option (List Nat)
  | [] => some []
  | i :: rest =>
    match rows.get? i, getIids rows rest with
    | some r, some t => some (r.iid :: t)
    | _, _ => none

/-- `tree.index(iid)`: position of a row; a missing item raises. -/
def treeIndex (rows : List Row) (iid : Nat) : Option Nat :=
  rows.findIdx? (fun r => r.iid = iid)

/-! ### FileData.py -/

def colTrack : String := "#1"
def colFilename : String := "#2"
def colTitle : String := "#3"
def colArtist : String := "#4"
def colAlbumArtist : String := "#5"
def colAlbum : String := "#6"
def colDate : String := "#7"
def colGenre : String := "#8"
def colPublisher : String := "#9"

def tagTrackNumber : String := "TrackNumber"
def tagTitle : String := "Title"
def tagArtist : String := "Artist"
def tagAlbumArtist : String := "AlbumArtist"
def tagAlbum : String := "Album"
def tagDate : String := "Date"
def tagGenre : String := "Genre"
def tagOrganization : String := "Organization"
def tagTrackTotal : String := "TrackTotal"

/-- `ConvertColToTag`: column identifier to metadata tag.  The source
falls off the end (returning `None`) for any other column, in
particular `#2`. -/
def ConvertColToTag (column : String) : Option String :=
  if column = colTrack then some tagTrackNumber
  else if column = colTitle then some tagTitle
  else if column = colArtist then some tagArtist
  else if column = colAlbumArtist then some tagAlbumArtist
  else if column = colAlbum then some tagAlbum
  else if column = colDate then some tagDate
  else if column = colGenre then some tagGenre
  else if column = colPublisher then some tagOrganization
  else none

/-- `ConvertTagToCol`: metadata tag to column identifier; falls off the
end (returning `None`) for any other tag, in particular `TrackTotal`. -/
def ConvertTagToCol (tag : String) : Option String :=
  if tag = tagTrackNumber then some colTrack
  else if tag = tagTitle then some colTitle
  else if tag = tagArtist then some colArtist
  else if tag = tagAlbumArtist then some colAlbumArtist
  else if tag = tagAlbum then some colAlbum
  else if tag = tagDate then some colDate
  else if tag = tagGenre then some colGenre
  else if tag = tagOrganization then some colPublisher
  else none

/-- `try: x = song[key][0] except KeyError: x = ''`.  A missing key is
caught and gives the empty string; a present key with an empty value
list would raise an uncaught `IndexError` at `[0]` (outer `none`). -/
def getField (song : TagSet) (key : String) : Option String :=
  match tagGet song key with
  | none => some (String.mk [])
  | some vs => vs.head?

def sepSemi : String := "; "

/-- The `a_string += artist + '; '` accumulation for multi-valued
fields. -/
def joinSemi (vs : List String) : String :=
  vs.foldl (fun acc a => acc ++ a ++ sepSemi) (String.mk [])

/-- Composite string for a possibly multi-valued field (`Artist`,
`AlbumArtist`, `Genre`): joined with `'; '` and right-stripped with the
given stripper when more than one value is present, the single value
when exactly one, empty (via the caught `KeyError`) when absent. -/
def getMulti (song : TagSet) (key : String) (strip2 : String → String) :
    Option String :=
  match tagGet song key with
  | none => some (String.mk [])
  | some vs =>
    if vs.length > 1 then some (strip2 (joinSemi vs)) else vs.head?

/-- `.rstrip().rstrip(';')` as applied to Artist and AlbumArtist. -/
def stripArtistTail (s : String) : String :=
  rstripBy (fun c => c = ';') (rstripBy isPyWs s)

/-- `.rstrip('; ')` as applied to Genre. -/
def stripGenreTail (s : String) : String :=
  rstripBy (fun c => c = ';' || c = ' ') s

/-- Result of `ParseFile`: `(True, None)` with the updated treeview, or
`(False, filename)` for a file Mutagen cannot load. -/
inductive ParseRes where
  | ok (rows : List Row)
  | fail (file : String)
deriving DecidableEq

/-- `ParseFile(filename, tree, index)`: load the song, read the nine
display fields, and insert a `song<index>` row at the end of the
treeview.  `none` models an uncaught exception (empty value list at a
`[0]`, or `tree.insert` on a duplicate item identifier). -/
def ParseFile (fs : FS) (filename : String) (rows : List Row) (index : Nat) :
    Option ParseRes :=
  match loadSong fs filename with
  | none => some (ParseRes.fail filename)
  | some song =>
    let short_name := pyBasename filename
    match
        (match tagGet song tagTrackNumber with
         | none => some (String.mk [])
         | some vs => (vs.head?).map (fun v => (pySplitChar '/' v).headD v)),
        getField song tagTitle, getField song tagAlbum,
        getField song tagDate, getField song tagOrganization,
        getMulti song tagArtist stripArtistTail,
        getMulti song tagAlbumArtist stripArtistTail,
        getMulti song tagGenre stripGenreTail with
    | some track_no, some title, some album, some date, some publisher,
      some a_string, some aa_string, some g_string =>
      match treeInsert rows
          { iid := index, trackNo := track_no, filename := short_name,
            title := title, artist := a_string, albumArtist := aa_string,
            album := album, date := date, genre := g_string,
            publisher := publisher } with
      | none => none
      | some rows1 => some (ParseRes.ok rows1)
    | _, _, _, _, _, _, _, _ => none

/-- Result of `UpdateMetadata`: `(False, filename)` or
`(True, col_no)` where `col_no` is `ConvertTagToCol`'s possibly-`None`
result. -/
inductive MetaRes where
  | fail (file : String)
  | ok (col : Option String)
deriving DecidableEq

/-- `UpdateMetadata(file, tag, update_string)`.  The `tag` argument is
`Option String` because `UpdateField` passes `ConvertColToTag`'s result
straight through; `song[None] = ...` raises (`none`). -/
def UpdateMetadata (fs : FS) (file : String) (tag : Option String)
    (update_string : String) : Option (MetaRes × FS) :=
  match loadSong fs file with
  | none => some (MetaRes.fail file, fs)
  | some song =>
    match tag with
    | none => none
    | some t =>
      let song1 := setTag song t [update_string]
      some (MetaRes.ok (ConvertTagToCol t), fsSave fs file song1)

/-- Result of `UpdateTrackNumbers`: `(True, None)` or
`(False, filename)`. -/
inductive TNRes where
  | fail (file : String)
  | ok
deriving DecidableEq

/-- `UpdateTrackNumbers(file, iid, track_no)` (the `iid` argument is
unused by the source as well). -/
def UpdateTrackNumbers (fs : FS) (file : String) (iid : Nat)
    (track_no : Nat) : TNRes × FS :=
  match loadSong fs file with
  | none => (TNRes.fail file, fs)
  | some song =>
    (TNRes.ok, fsSave fs file (setTag song tagTrackNumber [toString track_no]))

/-- Result of `UpdateTrackTitle`: `(True, title)` or
`(False, filename)`. -/
inductive TTRes where
  | fail (file : String)
  | ok (title : String)
deriving DecidableEq

/-- `UpdateTrackTitle(file, title, iid, index)`: strips the leading 3
characters of the title when `index < 10`, else the leading 4, then
writes it as the Title tag.  `index` is the 0-based loop counter passed
by `CopyTracklist`. -/
def UpdateTrackTitle (fs : FS) (file : String) (title : String) (iid : Nat)
    (index : Nat) : TTRes × FS :=
  match loadSong fs file with
  | none => (TTRes.fail file, fs)
  | some song =>
    let title1 := if index < 10 then pyDrop 3 title else pyDrop 4 title
    (TTRes.ok title1, fsSave fs file (setTag song tagTitle [title1]))

/-! ### Window.py: state and operations -/

/-- The mutable state of `TagWindow` relevant to the list
synchronization component, plus the tag store and the log of error
popups shown (`messagebox.showerror` calls). -/
structure St where
  added_files : List String
  rows : List Row
  listbox : List String
  files_loaded : Bool
  errors : List String
  fs : FS
deriving DecidableEq

/-- The seven metadata text-entry variables read by `SendData` and
`UpdateAll`. -/
structure EntryVars where
  album : String
  album_artist : String
  artist : String
  release_date : String
  genre : String
  publisher : String
  total_tracks : String
deriving DecidableEq

/-- The `if tag == ... / elif ...` chain of `SendData` selecting the
entry variable; an unmatched tag leaves `var_text` unbound
(`NameError`, modelled as `none`). -/
def selectVar (ev : EntryVars) (tag : String) : Option String :=
  if tag = tagAlbum then some (pyStrip ev.album)
  else if tag = tagAlbumArtist then some (pyStrip ev.album_artist)
  else if tag = tagArtist then some (pyStrip ev.artist)
  else if tag = tagDate then some (pyStrip ev.release_date)
  else if tag = tagGenre then some (pyStrip ev.genre)
  else if tag = tagOrganization then some (pyStrip ev.publisher)
  else if tag = tagTrackTotal then some (pyStrip ev.total_tracks)
  else none

def msgUnable : String := "Unable to access "

/-- The index-skipping copy loop used by `AddFiles` and `RemoveFiles`:
`for i, file in enumerate(xs, c): if i in idx: continue; append`. -/
def pyFilterIdx : List String → List Nat → Nat → List String
  | [], _, _ => []
  | x :: rest, idx, i =>
    if i ∈ idx then pyFilterIdx rest idx (i + 1)
    else x :: pyFilterIdx rest idx (i + 1)

/-- The `for i, file in enumerate(files, 0)` loop of `AddFiles`:
parse each file, show an error and record the index on failure.
Failure indices are produced in increasing loop order, matching the
source's `bad_files.append(i)`. -/
def addLoop (fs : FS) : List String → Nat → List Row → List String →
    Option (List Row × List String × List Nat)
  | [], _, rows, errs => some (rows, errs, [])
  | f :: rest, i, rows, errs =>
    match ParseFile fs f rows i with
    | none => none
    | some (ParseRes.ok rows1) => addLoop fs rest (i + 1) rows1 errs
    | some (ParseRes.fail bf) =>
      match addLoop fs rest (i + 1) rows (errs ++ [msgUnable ++ bf]) with
      | none => none
      | some (rows2, errs2, bad) => some (rows2, errs2, i :: bad)

/-- `AddFiles` with the dialog's selection passed in.  An empty
selection is a no-op.  Otherwise every file is parsed; if none failed,
`added_files` is *replaced* by the full selection, else by the
selection without the failed indices. -/
def addFiles (files : List String) (s : St) : Option St :=
  if files.isEmpty then some s
  else
    match addLoop s.fs files 0 s.rows s.errors with
    | none => none
    | some (rows1, errs1, bad) =>
      if bad.isEmpty then
        some { s with files_loaded := true, rows := rows1, errors := errs1,
                      added_files := files }
      else
        some { s with files_loaded := true, rows := rows1, errors := errs1,
                      added_files := pyFilterIdx files bad 0 }

/-- `RemoveFiles(index_list)` with the `askyesno` answer passed in.
Declining leaves the state untouched.  Confirming rebuilds
`added_files` skipping the listed indices, then maps each index to the
treeview item at that position and deletes those items. -/
def removeFiles (ans : Bool) (index_list : List Nat) (s : St) : Option St :=
  if ans = false then some s
  else
    match getIids s.rows index_list with
    | none => none
    | some iid_list =>
      match deleteIids s.rows iid_list with
      | none => none
      | some rows1 =>
        some { s with added_files := pyFilterIdx s.added_files index_list 0,
                      rows := rows1 }

/-- The `zip(self.added_files, self.tree.get_children())` loop of
`SendData` and `UpdateAll`, with the 0-based counter `i`: write the tag
through `UpdateMetadata`, update the returned column on success, record
the index and show an error on failure. -/
def sendLoop (tag var_text : String) : List (String × Nat) → Nat → FS →
    List Row → List String → Option (FS × List Row × List String × List Nat)
  | [], _, fs, rows, errs => some (fs, rows, errs, [])
  | (file, iid) :: rest, i, fs, rows, errs =>
    match UpdateMetadata fs file (some tag) var_text with
    | none => none
    | some (MetaRes.fail f, fs1) =>
      match sendLoop tag var_text rest (i + 1) fs1 rows
          (errs ++ [msgUnable ++ f]) with
      | none => none
      | some (fs2, rows2, errs2, bad) => some (fs2, rows2, errs2, i :: bad)
    | some (MetaRes.ok colOpt, fs1) =>
      match treeSet rows iid colOpt var_text with
      | none => none
      | some rows1 => sendLoop tag var_text rest (i + 1) fs1 rows1 errs

/-- One full pass of `SendData`'s loop followed by the single
`RemoveFiles` call on the accumulated bad indices. -/
def sendPass (tag var_text : String) (ans : Bool) (s : St) : Option St :=
  match sendLoop tag var_text (s.added_files.zip (s.rows.map Row.iid)) 0
      s.fs s.rows s.errors with
  | none => none
  | some (fs1, rows1, errs1, bad) =>
    let s1 := { s with fs := fs1, rows := rows1, errors := errs1 }
    if bad.isEmpty then some s1 else removeFiles ans bad s1

/-- `SendData(tag)` with entry variables and the removal answer passed
in. -/
def sendData (ev : EntryVars) (tag : String) (ans : Bool) (s : St) :
    Option St :=
  if s.files_loaded = false then some s
  else
    match selectVar ev tag with
    | none => none
    | some var_text => sendPass tag var_text ans s

/-- The fixed `data` list built by `UpdateAll`. -/
def updateAllData (ev : EntryVars) : List (String × String) :=
  [(tagAlbum, pyStrip ev.album),
   (tagAlbumArtist, pyStrip ev.album_artist),
   (tagArtist, pyStrip ev.artist),
   (tagDate, pyStrip ev.release_date),
   (tagGenre, pyStrip ev.genre),
   (tagOrganization, pyStrip ev.publisher),
   (tagTrackTotal, pyStrip ev.total_tracks)]

/-- The per-entry passes of `UpdateAll`; `ansF` gives the user's answer
to the removal prompt of the pass with the given index. -/
def runPasses : List (String × String) → (Nat → Bool) → Nat → St → Option St
  | [], _, _, s => some s
  | (tag, txt) :: rest, ansF, k, s =>
    match sendPass tag txt (ansF k) s with
    | none => none
    | some s1 => runPasses rest ansF (k + 1) s1

/-- `UpdateAll`: `SendData`'s loop applied for each of the seven
fields, each with its own failure collection and removal prompt. -/
def updateAll (ev : EntryVars) (ansF : Nat → Bool) (s : St) : Option St :=
  if s.files_loaded = false then some s
  else runPasses (updateAllData ev) ansF 0 s

/-- `zip` of three lists, stopping at the shortest. -/
def zip3 {α β γ : Type} : List α → List β → List γ → List (α × β × γ)
  | a :: ta, b :: tb, c :: tc => (a, b, c) :: zip3 ta tb tc
  | _, _, _ => []

/-- The `zip(added_files, get_children(), listbox.get(0, end))` loop of
`CopyTracklist` with the 0-based counter `i`: write the stripped title,
update column `#3` on success, record the index on failure. -/
def titleLoop : List (String × Nat × String) → Nat → FS → List Row →
    List String → Option (FS × List Row × List String × List Nat)
  | [], _, fs, rows, errs => some (fs, rows, errs, [])
  | (file, iid, title) :: rest, i, fs, rows, errs =>
    match UpdateTrackTitle fs file title iid i with
    | (TTRes.fail f, fs1) =>
      match titleLoop rest (i + 1) fs1 rows (errs ++ [msgUnable ++ f]) with
      | none => none
      | some (fs2, rows2, errs2, bad) => some (fs2, rows2, errs2, i :: bad)
    | (TTRes.ok res_str, fs1) =>
      match treeSet rows iid (some colTitle) res_str with
      | none => none
      | some rows1 => titleLoop rest (i + 1) fs1 rows1 errs

/-- `CopyTracklist` with the `askquestion` answer (a *string*, `"yes"`
or `"no"`) and the removal answer passed in.  The source's
`if not ask: return` only fires on an empty string, so answering
`"no"` does not stop the operation -- modelled verbatim. -/
def copyTracklist (ask : String) (ans : Bool) (s : St) : Option St :=
  if s.files_loaded = false then some s
  else if ask.isEmpty then some s
  else
    match titleLoop (zip3 s.added_files (s.rows.map Row.iid) s.listbox) 0
        s.fs s.rows s.errors with
    | none => none
    | some (fs1, rows1, errs1, bad) =>
      let s1 := { s with fs := fs1, rows := rows1, errors := errs1 }
      if bad.isEmpty then some s1 else removeFiles ans bad s1

/-- The `zip(added_files, get_children())` loop of `CopyTrackNumbers`
with the counter `i` starting at **1** (it doubles as the track
number): write the sequential track number, update column `#1` on
success; on failure the source appends this same 1-based counter to
`bad_files`. -/
def numLoop : List (String × Nat) → Nat → FS → List Row → List String →
    Option (FS × List Row × List String × List Nat)
  | [], _, fs, rows, errs => some (fs, rows, errs, [])
  | (file, iid) :: rest, i, fs, rows, errs =>
    match UpdateTrackNumbers fs file iid i with
    | (TNRes.fail f, fs1) =>
      match numLoop rest (i + 1) fs1 rows (errs ++ [msgUnable ++ f]) with
      | none => none
      | some (fs2, rows2, errs2, bad) => some (fs2, rows2, errs2, i :: bad)
    | (TNRes.ok, fs1) =>
      match treeSet rows iid (some colTrack) (toString i) with
      | none => none
      | some rows1 => numLoop rest (i + 1) fs1 rows1 errs

/-- `CopyTrackNumbers` with the removal answer passed in. -/
def copyTrackNumbers (ans : Bool) (s : St) : Option St :=
  if s.files_loaded = false then some s
  else
    match numLoop (s.added_files.zip (s.rows.map Row.iid)) 1
        s.fs s.rows s.errors with
    | none => none
    | some (fs1, rows1, errs1, bad) =>
      let s1 := { s with fs := fs1, rows := rows1, errors := errs1 }
      if bad.isEmpty then some s1 else removeFiles ans bad s1

def sortErrMsg : String := "One or more fields does not contain a number"

/-- Key computation for `tree_contents.sort(key=SortFunc)`: CPython
computes `int(tree.set(e, column='#1'))` for every element before any
reordering; the first `ValueError` aborts with the list untouched. -/
def keyRows : List Row → Option (List (Int × Row))
  | [] => some []
  | r :: rest =>
    match pyInt r.trackNo, keyRows rest with
    | some k, some t => some ((k, r) :: t)
    | _, _ => none

/-- The `added_files` rebuild loop of `SortByTrackNumber`:
`added_copy[int(iid[4:])]` for each row in sorted order; an
out-of-range index raises `IndexError` (`none`). -/
def rebuildAdded (added : List String) : List Row → Option (List String)
  | [] => some []
  | r :: rest =>
    match added.get? r.iid, rebuildAdded added rest with
    | some f, some t => some (f :: t)
    | _, _ => none

/-- `SortByTrackNumber`: parse every row's `#1` cell as an integer
(aborting with one error popup and no other change on a parse
failure), stably sort the rows by that key (Python's `list.sort` is
stable; modelled by insertion sort, which is stable in the same
sense), then rebuild `added_files` by indexing the pre-sort list with
each row's original `song<i>` insertion index. -/
def sortByTrackNumber (s : St) : Option St :=
  match keyRows s.rows with
  | none => some { s with errors := s.errors ++ [sortErrMsg] }
  | some keyed =>
    let sorted := List.insertionSort (fun p q : Int × Row => p.1 ≤ q.1) keyed
    let rows1 := sorted.map Prod.snd
    match rebuildAdded s.added_files rows1 with
    | none => none
    | some added1 => some { s with rows := rows1, added_files := added1 }

/-- `UpdateField` (the edit popup's button) with the new value, the
clicked row's item identifier, the clicked column and the removal
answer passed in.  An empty stripped value is a no-op.  The column is
mapped through `ConvertColToTag` (`None` for column `#2`, which then
raises inside `UpdateMetadata`). -/
def updateField (new_value : String) (clickedRow : Nat) (clickedCol : String)
    (ans : Bool) (s : St) : Option St :=
  let v := pyStrip new_value
  if v.isEmpty then some s
  else
    match treeIndex s.rows clickedRow with
    | none => none
    | some pos =>
      match s.added_files.get? pos with
      | none => none
      | some file =>
        match UpdateMetadata s.fs file (ConvertColToTag clickedCol) v with
        | none => none
        | some (MetaRes.fail f, fs1) =>
          removeFiles ans [pos]
            { s with fs := fs1, errors := s.errors ++ [msgUnable ++ f] }
        | some (MetaRes.ok colOpt, fs1) =>
          match treeSet s.rows clickedRow colOpt v with
          | none => none
          | some rows1 => some { s with fs := fs1, rows := rows1 }

/-! ### Specification-side predicates -/

/-- The spec's central invariant: the owned file-path list and the
display rows have the same length. -/
def lenInv (s : St) : Prop := s.added_files.length = s.rows.length

/-- Well-formedness the GUI maintains: treeview item identifiers are
distinct (tkinter enforces this at insertion). -/
def goodSt (s : St) : Prop := lenInv s ∧ (s.rows.map Row.iid).Nodup

instance (s : St) : Decidable (goodSt s) := by
  unfold goodSt lenInv
  infer_instance

/-- Whether `ParseFile` can load this path at all (supported extension
and readable by Mutagen); spec-side characterization of a "successfully
loaded path". -/
def loadOkB (fs : FS) (f : String) : Bool := (loadSong fs f).isSome

/-- Spec-side list of the (enumeration) indices of the paths in a
selection that fail to load. -/
def badIdxs (fs : FS) : List String → Nat → List Nat
  | [], _ => []
  | f :: rest, c =>
    if loadOkB fs f then badIdxs fs rest (c + 1)
    else c :: badIdxs fs rest (c + 1)

/-! ### Concrete fixtures -/

def fileA : String := "a.flac"
def fileB : String := "b.txt"
def fileC : String := "c.flac"
def fileGood : String := "good.flac"
def fileBad : String := "bad.mp3"
def fileT0 : String := "t0.flac"
def fileT1 : String := "t1.flac"
def fileT2 : String := "t2.flac"
def ansNo : String := "no"
def titleTen : String := "10. Foo"
def strSpaceFoo : String := " Foo"
def strFoo : String := "Foo"

/-- A fresh window state over a given tag store. -/
def stInit (fs : FS) : St :=
  { added_files := [], rows := [], listbox := [], files_loaded := false,
    errors := [], fs := fs }

/-- Store for the `AddFiles` scenarios: two readable FLAC files with no
tags; `b.txt` is unsupported and fails to load. -/
def fsC1 : FS := [(fileA, []), (fileC, [])]

/-- State after `AddFiles(["a.flac"])` from a fresh window over
`fsC1`. -/
def stC1a : St :=
  { added_files := [fileA],
    rows := [⟨0, "", fileA, "", "", "", "", "", "", ""⟩],
    listbox := [], files_loaded := true, errors := [], fs := fsC1 }

/-- State after a second `AddFiles(["b.txt", "c.flac"])` from `stC1a`:
the path list is replaced by the new selection's survivors while the
display keeps the old row -- breaking the length invariant. -/
def stC1b : St :=
  { added_files := [fileC],
    rows := [⟨0, "", fileA, "", "", "", "", "", "", ""⟩,
             ⟨1, "", fileC, "", "", "", "", "", "", ""⟩],
    listbox := [], files_loaded := true,
    errors := ["Unable to access b.txt"], fs := fsC1 }

/-- State after a second `AddFiles(["b.txt"])` from `stC1a`: the whole
new selection fails, so the path list becomes empty while the old
display row remains. -/
def stC2b : St :=
  { added_files := [],
    rows := [⟨0, "", fileA, "", "", "", "", "", "", ""⟩],
    listbox := [], files_loaded := true,
    errors := ["Unable to access b.txt"], fs := fsC1 }

/-- State after a single `AddFiles(["a.flac", "b.txt"])` from a fresh
window over `fsC1`. -/
def stC2w : St :=
  { added_files := [fileA],
    rows := [⟨0, "", fileA, "", "", "", "", "", "", ""⟩],
    listbox := [], files_loaded := true,
    errors := ["Unable to access b.txt"], fs := fsC1 }

/-- Store for the `CopyTrackNumbers` scenario: only `good.flac` is
readable. -/
def fsC4 : FS := [(fileGood, [])]

/-- Loaded state with the unreadable `bad.mp3` at position 0 and the
readable `good.flac` at position 1. -/
def stC4 : St :=
  { added_files := [fileBad, fileGood],
    rows := [⟨0, "", fileBad, "", "", "", "", "", "", ""⟩,
             ⟨1, "", fileGood, "", "", "", "", "", "", ""⟩],
    listbox := [], files_loaded := true, errors := [], fs := fsC4 }

/-- Store for the `CopyTracklist` scenario: `a.flac` readable with an
existing Title. -/
def fsC5 : FS := [(fileA, [(tagTitle, ["Old"])])]

/-- Loaded state with one file and one pending title. -/
def stC5 : St :=
  { added_files := [fileA],
    rows := [⟨0, "1", fileA, "Old", "", "", "", "", "", ""⟩],
    listbox := ["1. Intro"], files_loaded := true, errors := [],
    fs := fsC5 }

/-- Store for the title-strip scenario: `a.flac` readable, no tags. -/
def fsC6 : FS := [(fileA, [])]

/-- Loaded state with three files whose displayed track numbers are
`[3, 1, 2]` in insertion order `t0, t1, t2`. -/
def stC7 : St :=
  { added_files := [fileT0, fileT1, fileT2],
    rows := [⟨0, "3", fileT0, "", "", "", "", "", "", ""⟩,
             ⟨1, "1", fileT1, "", "", "", "", "", "", ""⟩,
             ⟨2, "2", fileT2, "", "", "", "", "", "", ""⟩],
    listbox := [], files_loaded := true, errors := [], fs := [] }

/-- The non-numeric row used for the sort-abort scenario. -/
def rowC8 : Row := ⟨0, "x", fileA, "", "", "", "", "", "", ""⟩

/-- Loaded state whose single row has an unparseable track number. -/
def stC8 : St :=
  { added_files := [fileA], rows := [rowC8], listbox := [],
    files_loaded := true, errors := [], fs := [] }

/-- Store for the partial-failure-then-sort scenario: two readable
files with parseable track numbers; `b.txt` fails. -/
def fsC9 : FS :=
  [(fileA, [(tagTrackNumber, ["1"])]), (fileC, [(tagTrackNumber, ["2"])])]

/-- Result of `CopyTrackNumbers` (confirming removal) on `stC4`: the
readable `good.flac` has been removed and the unreadable `bad.mp3`
kept, because the accumulated index is the 1-based counter. -/
def stC4r : St :=
  { added_files := [fileBad],
    rows := [⟨0, "", fileBad, "", "", "", "", "", "", ""⟩],
    listbox := [], files_loaded := true,
    errors := ["Unable to access bad.mp3"],
    fs := [(fileGood, [(tagTrackNumber, ["2"])])] }

/-- Result of `CopyTracklist` on `stC5` when the user answers "no":
the Title is overwritten anyway. -/
def stC5r : St :=
  { added_files := [fileA],
    rows := [⟨0, "1", fileA, "Intro", "", "", "", "", "", ""⟩],
    listbox := ["1. Intro"], files_loaded := true, errors := [],
    fs := [(fileA, [(tagTitle, ["Intro"])])] }

/-- Result of one `SortByTrackNumber` on `stC7`: display order
`[1, 2, 3]`, file list permuted identically. -/
def stC7b : St :=
  { added_files := [fileT1, fileT2, fileT0],
    rows := [⟨1, "1", fileT1, "", "", "", "", "", "", ""⟩,
             ⟨2, "2", fileT2, "", "", "", "", "", "", ""⟩,
             ⟨0, "3", fileT0, "", "", "", "", "", "", ""⟩],
    listbox := [], files_loaded := true, errors := [], fs := [] }

/-- Result of a second `SortByTrackNumber` on `stC7b`: the display
order is unchanged, but the file list is permuted again through the
stale insertion indices. -/
def stC7c : St :=
  { added_files := [fileT2, fileT0, fileT1],
    rows := [⟨1, "1", fileT1, "", "", "", "", "", "", ""⟩,
             ⟨2, "2", fileT2, "", "", "", "", "", "", ""⟩,
             ⟨0, "3", fileT0, "", "", "", "", "", "", ""⟩],
    listbox := [], files_loaded := true, errors := [], fs := [] }

/-- Result of `AddFiles(["a.flac", "b.txt", "c.flac"])` from a fresh
window over `fsC9`: a partial-failure load whose surviving rows carry
the insertion indices 0 and 2 while the file list has length 2. -/
def stC9a : St :=
  { added_files := [fileA, fileC],
    rows := [⟨0, "1", fileA, "", "", "", "", "", "", ""⟩,
             ⟨2, "2", fileC, "", "", "", "", "", "", ""⟩],
    listbox := [], files_loaded := true,
    errors := ["Unable to access b.txt"], fs := fsC9 }

/-- Two-file loaded state for the `RemoveFiles` witnesses. -/
def stC3 : St :=
  { added_files := [fileT0, fileT1],
    rows := [⟨0, "1", fileT0, "", "", "", "", "", "", ""⟩,
             ⟨1, "2", fileT1, "", "", "", "", "", "", ""⟩],
    listbox := [], files_loaded := true, errors := [], fs := [] }

/-- Result of a confirmed `RemoveFiles([0])` on `stC3`. -/
def stC3w : St :=
  { added_files := [fileT1],
    rows := [⟨1, "2", fileT1, "", "", "", "", "", "", ""⟩],
    listbox := [], files_loaded := true, errors := [], fs := [] }

/-! ### Helper lemmas: treeview primitives -/

theorem setCol_iid (r : Row) (c v : String) (r2 : Row)
    (h : setCol r c v = some r2) : r2.iid = r.iid := by
  unfold setCol at h
  split at h <;> first
  | (injection h with h2; rw [← h2])
  | simp_all

theorem treeSet_iids (rows : List Row) (iid : Nat) (col : Option String)
    (v : String) (rows2 : List Row) (h : treeSet rows iid col v = some rows2) :
    rows2.map Row.iid = rows.map Row.iid := by
  induction rows generalizing rows2 col with
  | nil => cases col <;> simp [treeSet] at h
  | cons r rest ih =>
    cases col with
    | none => simp [treeSet] at h
    | some c =>
      by_cases hr : r.iid = iid
      · simp only [treeSet, hr, if_true] at h
        rcases Option.map_eq_some'.mp h with ⟨r2, hsc, hrw⟩
        subst hrw
        simp [setCol_iid r c v r2 hsc]
      · simp only [treeSet, hr, if_false] at h
        rcases Option.map_eq_some'.mp h with ⟨t, ht, hrw⟩
        subst hrw
        simp [ih (some c) t ht]

theorem treeSet_length (rows : List Row) (iid : Nat) (col : Option String)
    (v : String) (rows2 : List Row) (h : treeSet rows iid col v = some rows2) :
    rows2.length = rows.length := by
  have := treeSet_iids rows iid col v rows2 h
  have h1 : (rows2.map Row.iid).length = (rows.map Row.iid).length := by
    rw [this]
  simpa using h1

theorem treeDelete_mem (rows : List Row) (iid : Nat) (rows2 : List Row)
    (h : treeDelete rows iid = some rows2) : iid ∈ rows.map Row.iid := by
  induction rows generalizing rows2 with
  | nil => simp [treeDelete] at h
  | cons r rest ih =>
    by_cases hr : r.iid = iid
    · simp [hr]
    · simp only [treeDelete, hr, if_false] at h
      rcases Option.map_eq_some'.mp h with ⟨t, ht, hrw⟩
      simp [ih t ht]

theorem treeDelete_iids (rows : List Row) (iid : Nat) (rows2 : List Row)
    (h : treeDelete rows iid = some rows2) :
    rows2.map Row.iid = (rows.map Row.iid).erase iid := by
  induction rows generalizing rows2 with
  | nil => simp [treeDelete] at h
  | cons r rest ih =>
    by_cases hr : r.iid = iid
    · simp only [treeDelete, hr, if_true, Option.some_inj] at h
      subst h
      simp [hr, List.erase_cons_head]
    · simp only [treeDelete, hr, if_false] at h
      rcases Option.map_eq_some'.mp h with ⟨t, ht, hrw⟩
      subst hrw
      have : ¬ (r.iid == iid) = true := by simpa using hr
      simp [List.erase_cons_tail this, ih t ht]

theorem treeDelete_length (rows : List Row) (iid : Nat) (rows2 : List Row)
    (h : treeDelete rows iid = some rows2) :
    rows2.length + 1 = rows.length := by
  have hm := treeDelete_mem rows iid rows2 h
  have hi := treeDelete_iids rows iid rows2 h
  have h1 : (rows2.map Row.iid).length = ((rows.map Row.iid).erase iid).length := by
    rw [hi]
  rw [List.length_erase_of_mem hm] at h1
  simp only [List.length_map] at h1
  have hpos : 0 < rows.length := by
    cases rows
    · simp at hm
    · simp
  omega

theorem deleteIids_sub (rows : List Row) (l : List Nat) (rows2 : List Row)
    (h : deleteIids rows l = some rows2) :
    ∀ x ∈ l, x ∈ rows.map Row.iid := by
  induction l generalizing rows with
  | nil => simp
  | cons iid rest ih =>
    intro x hx
    simp only [deleteIids] at h
    cases hd : treeDelete rows iid with
    | none => rw [hd] at h; exact absurd h (by simp)
    | some rows1 =>
      rw [hd] at h
      rcases List.mem_cons.mp hx with hx0 | hx1
      · subst hx0
        exact treeDelete_mem rows x rows1 hd
      · have := ih rows1 h x hx1
        rw [treeDelete_iids rows iid rows1 hd] at this
        exact List.mem_of_mem_erase this

theorem deleteIids_spec (rows : List Row) (l : List Nat) (rows2 : List Row)
    (hnd : (rows.map Row.iid).Nodup) (h : deleteIids rows l = some rows2) :
    rows2.length + l.length = rows.length ∧ (rows2.map Row.iid).Nodup ∧
      l.Nodup := by
  induction l generalizing rows with
  | nil =>
    simp only [deleteIids, Option.some_inj] at h
    subst h
    simpa using hnd
  | cons iid rest ih =>
    simp only [deleteIids] at h
    cases hd : treeDelete rows iid with
    | none => rw [hd] at h; exact absurd h (by simp)
    | some rows1 =>
      rw [hd] at h
      have hlen1 := treeDelete_length rows iid rows1 hd
      have hiids1 := treeDelete_iids rows iid rows1 hd
      have hnd1 : (rows1.map Row.iid).Nodup := by
        rw [hiids1]
        exact hnd.erase iid
      rcases ih rows1 hnd1 h with ⟨hl, hn2, hnr⟩
      refine ⟨by simp only [List.length_cons]; omega, hn2, ?_⟩
      refine List.nodup_cons.mpr ⟨?_, hnr⟩
      intro hmem
      have hin : iid ∈ rows1.map Row.iid := deleteIids_sub rows1 rest rows2 h iid hmem
      rw [hiids1] at hin
      rcases (hnd.mem_erase_iff).mp hin with ⟨hne, _⟩
      exact hne rfl

/-! ### Helper lemmas: RemoveFiles -/

theorem getIids_rel (rows : List Row) (l : List Nat) (iids : List Nat)
    (h : getIids rows l = some iids) :
    List.Forall₂ (fun i y => (rows.get? i).map Row.iid = some y) l iids := by
  induction l generalizing iids with
  | nil =>
    simp only [getIids, Option.some_inj] at h
    subst h
    exact List.Forall₂.nil
  | cons i rest ih =>
    simp only [getIids] at h
    cases hg : rows.get? i with
    | none => rw [hg] at h; simp at h
    | some r =>
      rw [hg] at h
      cases ht : getIids rows rest with
      | none => rw [ht] at h; simp at h
      | some t =>
        rw [ht] at h
        simp only [Option.some_inj] at h
        subst h
        exact List.Forall₂.cons (by rw [hg]; rfl) (ih t ht)

theorem forall2_mem_left {α β : Type} {R : α → β → Prop} {l : List α}
    {ys : List β} (h : List.Forall₂ R l ys) (a : α) (ha : a ∈ l) :
    ∃ y ∈ ys, R a y := by
  induction h with
  | nil => simp at ha
  | cons hr hrest ih =>
    rcases List.mem_cons.mp ha with h0 | h1
    · subst h0
      exact ⟨_, by simp, hr⟩
    · rcases ih h1 with ⟨y, hy, hr2⟩
      exact ⟨y, by simp [hy], hr2⟩

theorem forall2_nodup_left {α β : Type} {R : α → β → Prop} {l : List α}
    {ys : List β} (h : List.Forall₂ R l ys) (hnd : ys.Nodup)
    (hfun : ∀ a y y2, R a y → R a y2 → y = y2) : l.Nodup := by
  induction h with
  | nil => exact List.nodup_nil
  | @cons a y l2 ys2 hr hrest ih =>
    rcases List.nodup_cons.mp hnd with ⟨hy, hnd2⟩
    refine List.nodup_cons.mpr ⟨?_, ih hnd2⟩
    intro hmem
    rcases forall2_mem_left hrest a hmem with ⟨y2, hy2, hr2⟩
    rw [hfun a y y2 hr hr2] at hy
    exact hy hy2

theorem mapiid_get_inj (rows : List Row)
    (hnd : (rows.map Row.iid).Nodup) (a y : Nat)
    (ha : (rows.get? a).map Row.iid = some y) :
    ∀ b, (rows.get? b).map Row.iid = some y → a = b := by
  intro b hb
  have ha2 : (rows.map Row.iid).get? a = some y := by
    rw [List.get?_map]; exact ha
  have hb2 : (rows.map Row.iid).get? b = some y := by
    rw [List.get?_map]; exact hb
  have halt : a < (rows.map Row.iid).length := by
    rcases List.get?_eq_some.mp ha2 with ⟨hlt, _⟩
    exact hlt
  exact List.get?_inj halt hnd (by rw [ha2, hb2])

theorem pyFilterIdx_length (xs : List String) (idx : List Nat) :
    ∀ c, (pyFilterIdx xs idx c).length =
      xs.length -
        ((List.range' c xs.length).filter (fun i => decide (i ∈ idx))).length := by
  induction xs with
  | nil => intro c; simp [pyFilterIdx]
  | cons x rest ih =>
    intro c
    have hrange : List.range' c (x :: rest).length =
        c :: List.range' (c + 1) rest.length := rfl
    have hle : ((List.range' (c + 1) rest.length).filter
        (fun i => decide (i ∈ idx))).length ≤ rest.length := by
      have h1 := List.length_filter_le (fun i => decide (i ∈ idx))
        (List.range' (c + 1) rest.length)
      simpa [List.length_range'] using h1
    by_cases hm : c ∈ idx
    · simp only [pyFilterIdx, hm, if_true]
      rw [ih (c + 1), hrange]
      have hf : List.filter (fun i => decide (i ∈ idx))
          (c :: List.range' (c + 1) rest.length) =
          c :: List.filter (fun i => decide (i ∈ idx))
            (List.range' (c + 1) rest.length) := by
        simp [List.filter_cons, hm]
      rw [hf]
      simp only [List.length_cons]
      omega
    · simp only [pyFilterIdx, hm, if_false]
      rw [hrange]
      have hf : List.filter (fun i => decide (i ∈ idx))
          (c :: List.range' (c + 1) rest.length) =
          List.filter (fun i => decide (i ∈ idx))
            (List.range' (c + 1) rest.length) := by
        simp [List.filter_cons, hm]
      rw [hf]
      have h2 := ih (c + 1)
      simp only [List.length_cons]
      omega

theorem filter_range_nodup_len (idx : List Nat) (n : Nat) (hnd : idx.Nodup)
    (hb : ∀ i ∈ idx, i < n) :
    ((List.range' 0 n).filter (fun i => decide (i ∈ idx))).length =
      idx.length := by
  have hperm : ((List.range' 0 n).filter
      (fun i => decide (i ∈ idx))).Perm idx := by
    refine (List.perm_ext_iff_of_nodup ?_ hnd).mpr ?_
    · exact (List.nodup_range' 0 n).filter _
    · intro a
      simp only [List.mem_filter, List.mem_range'_1, decide_eq_true_eq]
      constructor
      · exact fun hx => hx.2
      · intro hx
        exact ⟨⟨Nat.zero_le a, by simpa using hb a hx⟩, hx⟩
  exact hperm.length_eq

theorem removeFiles_decline (s : St) (idx : List Nat) :
    removeFiles false idx s = some s := by
  simp [removeFiles]

theorem removeFiles_good (ans : Bool) (idx : List Nat) (s s2 : St)
    (hg : goodSt s) (h : removeFiles ans idx s = some s2) : goodSt s2 := by
  rcases hg with ⟨hinv, hnd⟩
  unfold removeFiles at h
  by_cases hans : ans = false
  · rw [if_pos hans, Option.some_inj] at h
    subst h
    exact ⟨hinv, hnd⟩
  rw [if_neg hans] at h
  cases hiids : getIids s.rows idx with
  | none => simp only [hiids] at h; exact absurd h (by simp)
  | some iid_list =>
    simp only [hiids] at h
    cases hdel : deleteIids s.rows iid_list with
    | none => simp only [hdel] at h; exact absurd h (by simp)
    | some rows1 =>
      simp only [hdel, Option.some_inj] at h
      subst h
      have hf2 := getIids_rel s.rows idx iid_list hiids
      have hlen2 : idx.length = iid_list.length := hf2.length_eq
      rcases deleteIids_spec s.rows iid_list rows1 hnd hdel with
        ⟨hdlen, hdnd, hlnd⟩
      have hidxnd : idx.Nodup := by
        refine forall2_nodup_left hf2 hlnd ?_
        intro a y y2 h1 h2
        rw [h1, Option.some_inj] at h2
        exact h2
      have hbound : ∀ i ∈ idx, i < s.rows.length := by
        intro i hi
        rcases forall2_mem_left hf2 i hi with ⟨y, _, hR⟩
        rcases Option.map_eq_some'.mp hR with ⟨r, hr, _⟩
        rcases List.get?_eq_some.mp hr with ⟨hlt, _⟩
        exact hlt
      have hb2 : ∀ i ∈ idx, i < s.added_files.length := by
        intro i hi
        have := hbound i hi
        unfold lenInv at hinv
        omega
      have hlenfinal : (pyFilterIdx s.added_files idx 0).length =
          rows1.length := by
        rw [pyFilterIdx_length s.added_files idx 0,
          filter_range_nodup_len idx s.added_files.length hidxnd hb2]
        unfold lenInv at hinv
        omega
      exact ⟨hlenfinal, hdnd⟩

/-! ### Helper lemmas: batch-write loops preserve the display rows -/

theorem sendLoop_pre (tag v : String) :
    ∀ (pairs : List (String × Nat)) (i : Nat) (fs : FS) (rows : List Row)
      (errs : List String) (fs2 : FS) (rows2 : List Row)
      (errs2 : List String) (bad : List Nat),
      sendLoop tag v pairs i fs rows errs = some (fs2, rows2, errs2, bad) →
      rows2.map Row.iid = rows.map Row.iid := by
  intro pairs
  induction pairs with
  | nil =>
    intro i fs rows errs fs2 rows2 errs2 bad h
    simp only [sendLoop, Option.some_inj, Prod.mk.injEq] at h
    rcases h with ⟨_, h2, _, _⟩
    rw [h2]
  | cons p rest ih =>
    obtain ⟨file, iid⟩ := p
    intro i fs rows errs fs2 rows2 errs2 bad h
    simp only [sendLoop] at h
    cases hm : UpdateMetadata fs file (some tag) v with
    | none => rw [hm] at h; exact absurd h (by simp)
    | some pr =>
      obtain ⟨res, fs1⟩ := pr
      cases res with
      | fail f =>
        rw [hm] at h
        simp only [] at h
        cases hrec : sendLoop tag v rest (i + 1) fs1 rows
            (errs ++ [msgUnable ++ f]) with
        | none => rw [hrec] at h; exact absurd h (by simp)
        | some quad =>
          obtain ⟨fs2b, rows2b, errs2b, badb⟩ := quad
          rw [hrec] at h
          simp only [Option.some_inj, Prod.mk.injEq] at h
          rcases h with ⟨_, h2, _, _⟩
          rw [← h2]
          exact ih (i + 1) fs1 rows (errs ++ [msgUnable ++ f]) fs2b rows2b
            errs2b badb hrec
      | ok colOpt =>
        rw [hm] at h
        simp only [] at h
        cases hts : treeSet rows iid colOpt v with
        | none => rw [hts] at h; exact absurd h (by simp)
        | some rows1 =>
          rw [hts] at h
          simp only [] at h
          have hih := ih (i + 1) fs1 rows1 errs fs2 rows2 errs2 bad h
          rw [hih]
          exact treeSet_iids rows iid colOpt v rows1 hts

theorem titleLoop_pre :
    ∀ (triples : List (String × Nat × String)) (i : Nat) (fs : FS)
      (rows : List Row) (errs : List String) (fs2 : FS) (rows2 : List Row)
      (errs2 : List String) (bad : List Nat),
      titleLoop triples i fs rows errs = some (fs2, rows2, errs2, bad) →
      rows2.map Row.iid = rows.map Row.iid := by
  intro triples
  induction triples with
  | nil =>
    intro i fs rows errs fs2 rows2 errs2 bad h
    simp only [titleLoop, Option.some_inj, Prod.mk.injEq] at h
    rcases h with ⟨_, h2, _, _⟩
    rw [h2]
  | cons p rest ih =>
    obtain ⟨file, iid, title⟩ := p
    intro i fs rows errs fs2 rows2 errs2 bad h
    simp only [titleLoop] at h
    cases hm : UpdateTrackTitle fs file title iid i with
    | mk res fs1 =>
      cases res with
      | fail f =>
        rw [hm] at h
        simp only [] at h
        cases hrec : titleLoop rest (i + 1) fs1 rows
            (errs ++ [msgUnable ++ f]) with
        | none => rw [hrec] at h; exact absurd h (by simp)
        | some quad =>
          obtain ⟨fs2b, rows2b, errs2b, badb⟩ := quad
          rw [hrec] at h
          simp only [Option.some_inj, Prod.mk.injEq] at h
          rcases h with ⟨_, h2, _, _⟩
          rw [← h2]
          exact ih (i + 1) fs1 rows (errs ++ [msgUnable ++ f]) fs2b rows2b
            errs2b badb hrec
      | ok res_str =>
        rw [hm] at h
        simp only [] at h
        cases hts : treeSet rows iid (some colTitle) res_str with
        | none => rw [hts] at h; exact absurd h (by simp)
        | some rows1 =>
          rw [hts] at h
          simp only [] at h
          have hih := ih (i + 1) fs1 rows1 errs fs2 rows2 errs2 bad h
          rw [hih]
          exact treeSet_iids rows iid (some colTitle) res_str rows1 hts

theorem numLoop_pre :
    ∀ (pairs : List (String × Nat)) (i : Nat) (fs : FS) (rows : List Row)
      (errs : List String) (fs2 : FS) (rows2 : List Row)
      (errs2 : List String) (bad : List Nat),
      numLoop pairs i fs rows errs = some (fs2, rows2, errs2, bad) →
      rows2.map Row.iid = rows.map Row.iid := by
  intro pairs
  induction pairs with
  | nil =>
    intro i fs rows errs fs2 rows2 errs2 bad h
    simp only [numLoop, Option.some_inj, Prod.mk.injEq] at h
    rcases h with ⟨_, h2, _, _⟩
    rw [h2]
  | cons p rest ih =>
    obtain ⟨file, iid⟩ := p
    intro i fs rows errs fs2 rows2 errs2 bad h
    simp only [numLoop] at h
    cases hm : UpdateTrackNumbers fs file iid i with
    | mk res fs1 =>
      cases res with
      | fail f =>
        rw [hm] at h
        simp only [] at h
        cases hrec : numLoop rest (i + 1) fs1 rows
            (errs ++ [msgUnable ++ f]) with
        | none => rw [hrec] at h; exact absurd h (by simp)
        | some quad =>
          obtain ⟨fs2b, rows2b, errs2b, badb⟩ := quad
          rw [hrec] at h
          simp only [Option.some_inj, Prod.mk.injEq] at h
          rcases h with ⟨_, h2, _, _⟩
          rw [← h2]
          exact ih (i + 1) fs1 rows (errs ++ [msgUnable ++ f]) fs2b rows2b
            errs2b badb hrec
      | ok =>
        rw [hm] at h
        simp only [] at h
        cases hts : treeSet rows iid (some colTrack) (toString i) with
        | none => rw [hts] at h; exact absurd h (by simp)
        | some rows1 =>
          rw [hts] at h
          simp only [] at h
          have hih := ih (i + 1) fs1 rows1 errs fs2 rows2 errs2 bad h
          rw [hih]
          exact treeSet_iids rows iid (some colTrack) (toString i) rows1 hts

/-! ### Helper lemmas: operations preserve the good state -/

theorem sendPass_good (tag v : String) (ans : Bool) (s s2 : St)
    (hg : goodSt s) (h : sendPass tag v ans s = some s2) : goodSt s2 := by
  unfold sendPass at h
  cases hsl : sendLoop tag v (s.added_files.zip (s.rows.map Row.iid)) 0
      s.fs s.rows s.errors with
  | none => rw [hsl] at h; exact absurd h (by simp)
  | some quad =>
    obtain ⟨fs1, rows1, errs1, bad⟩ := quad
    rw [hsl] at h
    simp only [] at h
    have hiids := sendLoop_pre tag v _ 0 s.fs s.rows s.errors fs1 rows1
      errs1 bad hsl
    have hlen : rows1.length = s.rows.length := by
      have h2 := congrArg List.length hiids
      simpa using h2
    have hg1 : goodSt { s with fs := fs1, rows := rows1, errors := errs1 } := by
      rcases hg with ⟨hinv, hnd⟩
      refine ⟨?_, ?_⟩
      · show s.added_files.length = rows1.length
        unfold lenInv at hinv
        omega
      · show (rows1.map Row.iid).Nodup
        rw [hiids]
        exact hnd
    by_cases hb : bad.isEmpty = true
    · rw [if_pos hb, Option.some_inj] at h
      subst h
      exact hg1
    · rw [if_neg hb] at h
      exact removeFiles_good ans bad _ s2 hg1 h

theorem sendData_good (ev : EntryVars) (tag : String) (ans : Bool)
    (s s2 : St) (hg : goodSt s) (h : sendData ev tag ans s = some s2) :
    goodSt s2 := by
  unfold sendData at h
  by_cases hf : s.files_loaded = false
  · rw [if_pos hf, Option.some_inj] at h
    subst h
    exact hg
  · rw [if_neg hf] at h
    cases hsv : selectVar ev tag with
    | none => rw [hsv] at h; exact absurd h (by simp)
    | some vtext =>
      rw [hsv] at h
      simp only [] at h
      exact sendPass_good tag vtext ans s s2 hg h

theorem runPasses_good :
    ∀ (ps : List (String × String)) (ansF : Nat → Bool) (k : Nat)
      (s s2 : St), goodSt s → runPasses ps ansF k s = some s2 → goodSt s2 := by
  intro ps
  induction ps with
  | nil =>
    intro ansF k s s2 hg h
    simp only [runPasses, Option.some_inj] at h
    subst h
    exact hg
  | cons p rest ih =>
    obtain ⟨tag, txt⟩ := p
    intro ansF k s s2 hg h
    simp only [runPasses] at h
    cases hsp : sendPass tag txt (ansF k) s with
    | none => rw [hsp] at h; exact absurd h (by simp)
    | some s1 =>
      rw [hsp] at h
      simp only [] at h
      exact ih ansF (k + 1) s1 s2 (sendPass_good tag txt (ansF k) s s1 hg hsp) h

theorem updateAll_good (ev : EntryVars) (ansF : Nat → Bool) (s s2 : St)
    (hg : goodSt s) (h : updateAll ev ansF s = some s2) : goodSt s2 := by
  unfold updateAll at h
  by_cases hf : s.files_loaded = false
  · rw [if_pos hf, Option.some_inj] at h
    subst h
    exact hg
  · rw [if_neg hf] at h
    exact runPasses_good (updateAllData ev) ansF 0 s s2 hg h

theorem copyTracklist_good (ask : String) (ans : Bool) (s s2 : St)
    (hg : goodSt s) (h : copyTracklist ask ans s = some s2) : goodSt s2 := by
  unfold copyTracklist at h
  by_cases hf : s.files_loaded = false
  · rw [if_pos hf, Option.some_inj] at h
    subst h
    exact hg
  rw [if_neg hf] at h
  by_cases ha : ask.isEmpty = true
  · rw [if_pos ha, Option.some_inj] at h
    subst h
    exact hg
  rw [if_neg ha] at h
  cases htl : titleLoop (zip3 s.added_files (s.rows.map Row.iid) s.listbox) 0
      s.fs s.rows s.errors with
  | none => rw [htl] at h; exact absurd h (by simp)
  | some quad =>
    obtain ⟨fs1, rows1, errs1, bad⟩ := quad
    rw [htl] at h
    simp only [] at h
    have hiids := titleLoop_pre _ 0 s.fs s.rows s.errors fs1 rows1 errs1
      bad htl
    have hlen : rows1.length = s.rows.length := by
      have h2 := congrArg List.length hiids
      simpa using h2
    have hg1 : goodSt { s with fs := fs1, rows := rows1, errors := errs1 } := by
      rcases hg with ⟨hinv, hnd⟩
      refine ⟨?_, ?_⟩
      · show s.added_files.length = rows1.length
        unfold lenInv at hinv
        omega
      · show (rows1.map Row.iid).Nodup
        rw [hiids]
        exact hnd
    by_cases hb : bad.isEmpty = true
    · rw [if_pos hb, Option.some_inj] at h
      subst h
      exact hg1
    · rw [if_neg hb] at h
      exact removeFiles_good ans bad _ s2 hg1 h

theorem copyTrackNumbers_good (ans : Bool) (s s2 : St)
    (hg : goodSt s) (h : copyTrackNumbers ans s = some s2) : goodSt s2 := by
  unfold copyTrackNumbers at h
  by_cases hf : s.files_loaded = false
  · rw [if_pos hf, Option.some_inj] at h
    subst h
    exact hg
  rw [if_neg hf] at h
  cases hnl : numLoop (s.added_files.zip (s.rows.map Row.iid)) 1
      s.fs s.rows s.errors with
  | none => rw [hnl] at h; exact absurd h (by simp)
  | some quad =>
    obtain ⟨fs1, rows1, errs1, bad⟩ := quad
    rw [hnl] at h
    simp only [] at h
    have hiids := numLoop_pre _ 1 s.fs s.rows s.errors fs1 rows1 errs1
      bad hnl
    have hlen : rows1.length = s.rows.length := by
      have h2 := congrArg List.length hiids
      simpa using h2
    have hg1 : goodSt { s with fs := fs1, rows := rows1, errors := errs1 } := by
      rcases hg with ⟨hinv, hnd⟩
      refine ⟨?_, ?_⟩
      · show s.added_files.length = rows1.length
        unfold lenInv at hinv
        omega
      · show (rows1.map Row.iid).Nodup
        rw [hiids]
        exact hnd
    by_cases hb : bad.isEmpty = true
    · rw [if_pos hb, Option.some_inj] at h
      subst h
      exact hg1
    · rw [if_neg hb] at h
      exact removeFiles_good ans bad _ s2 hg1 h

theorem updateField_good (nv : String) (row : Nat) (col : String)
    (ans : Bool) (s s2 : St) (hg : goodSt s)
    (h : updateField nv row col ans s = some s2) : goodSt s2 := by
  simp only [updateField] at h
  by_cases hv : (pyStrip nv).isEmpty = true
  · rw [if_pos hv, Option.some_inj] at h
    subst h
    exact hg
  rw [if_neg hv] at h
  cases hti : treeIndex s.rows row with
  | none => rw [hti] at h; exact absurd h (by simp)
  | some pos =>
    rw [hti] at h
    simp only [] at h
    cases hgp : s.added_files.get? pos with
    | none => rw [hgp] at h; exact absurd h (by simp)
    | some file =>
      rw [hgp] at h
      simp only [] at h
      cases hum : UpdateMetadata s.fs file (ConvertColToTag col)
          (pyStrip nv) with
      | none => rw [hum] at h; exact absurd h (by simp)
      | some pr =>
        obtain ⟨res, fs1⟩ := pr
        cases res with
        | fail f =>
          rw [hum] at h
          simp only [] at h
          refine removeFiles_good ans [pos] _ s2 ?_ h
          exact ⟨hg.1, hg.2⟩
        | ok colOpt =>
          rw [hum] at h
          simp only [] at h
          cases hts : treeSet s.rows row colOpt (pyStrip nv) with
          | none => rw [hts] at h; exact absurd h (by simp)
          | some rows1 =>
            rw [hts] at h
            simp only [Option.some_inj] at h
            subst h
            have hiids := treeSet_iids s.rows row colOpt (pyStrip nv)
              rows1 hts
            refine ⟨?_, ?_⟩
            · show s.added_files.length = rows1.length
              have h2 := congrArg List.length hiids
              simp only [List.length_map] at h2
              have := hg.1
              unfold lenInv at this
              omega
            · show (rows1.map Row.iid).Nodup
              rw [hiids]
              exact hg.2

/-! ### Helper lemmas: sorting -/

theorem keyRows_snd (rows : List Row) (keyed : List (Int × Row))
    (h : keyRows rows = some keyed) : keyed.map Prod.snd = rows := by
  induction rows generalizing keyed with
  | nil =>
    simp only [keyRows, Option.some_inj] at h
    subst h
    rfl
  | cons r rest ih =>
    simp only [keyRows] at h
    cases hp : pyInt r.trackNo with
    | none => rw [hp] at h; exact absurd h (by simp)
    | some k =>
      rw [hp] at h
      cases hk : keyRows rest with
      | none => rw [hk] at h; exact absurd h (by simp)
      | some t =>
        rw [hk] at h
        simp only [Option.some_inj] at h
        subst h
        simp [ih t hk]

theorem keyRows_none (rows : List Row) (r : Row) (hr : r ∈ rows)
    (hp : pyInt r.trackNo = none) : keyRows rows = none := by
  induction rows with
  | nil => simp at hr
  | cons x rest ih =>
    rcases List.mem_cons.mp hr with h0 | h1
    · subst h0
      cases hk : keyRows rest <;> simp [keyRows, hp, hk]
    · cases hp2 : pyInt x.trackNo <;> simp [keyRows, hp2, ih h1]

theorem rebuildAdded_len (added : List String) :
    ∀ (rows1 : List Row) (added1 : List String),
      rebuildAdded added rows1 = some added1 →
      added1.length = rows1.length := by
  intro rows1
  induction rows1 with
  | nil =>
    intro added1 h
    simp only [rebuildAdded, Option.some_inj] at h
    subst h
    rfl
  | cons r rest ih =>
    intro added1 h
    simp only [rebuildAdded] at h
    cases hgp : added.get? r.iid with
    | none => rw [hgp] at h; exact absurd h (by simp)
    | some f =>
      rw [hgp] at h
      cases hrec : rebuildAdded added rest with
      | none => rw [hrec] at h; exact absurd h (by simp)
      | some t =>
        rw [hrec] at h
        simp only [Option.some_inj] at h
        subst h
        simp [ih t hrec]

theorem sortByTrackNumber_good (s s2 : St) (hg : goodSt s)
    (h : sortByTrackNumber s = some s2) : goodSt s2 := by
  unfold sortByTrackNumber at h
  cases hk : keyRows s.rows with
  | none =>
    rw [hk] at h
    simp only [Option.some_inj] at h
    subst h
    exact ⟨hg.1, hg.2⟩
  | some keyed =>
    rw [hk] at h
    simp only [] at h
    split at h
    · exact absurd h (by simp)
    · rename_i added1 heq
      simp only [Option.some_inj] at h
      subst h
      have hperm : ((List.insertionSort
          (fun p q : Int × Row => p.1 ≤ q.1) keyed).map Prod.snd).Perm
          s.rows := by
        have h1 := (List.perm_insertionSort
          (fun p q : Int × Row => p.1 ≤ q.1) keyed).map Prod.snd
        rw [keyRows_snd s.rows keyed hk] at h1
        exact h1
      refine ⟨?_, ?_⟩
      · show added1.length = _
        rw [rebuildAdded_len s.added_files _ added1 heq]
      · show ((List.map Prod.snd _).map Row.iid).Nodup
        have h2 := (hperm.map Row.iid).symm
        exact h2.nodup hg.2

/-! ### Helper lemmas: AddFiles -/

theorem ParseFile_fail (fs : FS) (f : String) (rows : List Row) (i : Nat)
    (bf : String) (h : ParseFile fs f rows i = some (ParseRes.fail bf)) :
    loadSong fs f = none ∧ bf = f := by
  unfold ParseFile at h
  cases hl : loadSong fs f with
  | none =>
    rw [hl] at h
    simp only [Option.some_inj, ParseRes.fail.injEq] at h
    exact ⟨rfl, h.symm⟩
  | some song =>
    rw [hl] at h
    simp only [] at h
    split at h
    · split at h <;> simp_all
    · simp_all

theorem ParseFile_ok (fs : FS) (f : String) (rows : List Row) (i : Nat)
    (rows1 : List Row) (h : ParseFile fs f rows i = some (ParseRes.ok rows1)) :
    ∃ r : Row, rows1 = rows ++ [r] ∧ r.iid = i ∧ r.filename = pyBasename f ∧
      r.iid ∉ rows.map Row.iid ∧ loadSong fs f ≠ none := by
  unfold ParseFile at h
  cases hl : loadSong fs f with
  | none =>
    rw [hl] at h
    simp at h
  | some song =>
    rw [hl] at h
    simp only [] at h
    split at h
    · split at h
      · exact absurd h (by simp)
      · rename_i rows2 hins
        simp only [Option.some_inj, ParseRes.ok.injEq] at h
        subst h
        unfold treeInsert at hins
        split at hins
        · exact absurd hins (by simp)
        · rename_i hany
          simp only [Option.some_inj] at hins
          subst hins
          refine ⟨_, rfl, rfl, rfl, ?_, by simp [hl]⟩
          intro hmem
          apply hany
          simp only [List.any_eq_true]
          rcases List.mem_map.mp hmem with ⟨x, hx, hxiid⟩
          exact ⟨x, hx, by simp [hxiid]⟩
    · exact absurd h (by simp)

theorem addLoop_spec (fs : FS) :
    ∀ (files : List String) (i : Nat) (rows : List Row) (errs : List String)
      (rows2 : List Row) (errs2 : List String) (bad : List Nat),
      addLoop fs files i rows errs = some (rows2, errs2, bad) →
      (rows2.map Row.filename = rows.map Row.filename ++
        ((files.filter (loadOkB fs)).map pyBasename)) ∧
      rows2.length = rows.length + (files.filter (loadOkB fs)).length ∧
      bad = badIdxs fs files i ∧
      ((rows.map Row.iid).Nodup → (rows2.map Row.iid).Nodup) := by
  intro files
  induction files with
  | nil =>
    intro i rows errs rows2 errs2 bad h
    simp only [addLoop, Option.some_inj, Prod.mk.injEq] at h
    rcases h with ⟨h1, h2, h3⟩
    subst h1
    subst h2
    subst h3
    simp [badIdxs]
  | cons f rest ih =>
    intro i rows errs rows2 errs2 bad h
    simp only [addLoop] at h
    cases hp : ParseFile fs f rows i with
    | none => rw [hp] at h; exact absurd h (by simp)
    | some res =>
      cases res with
      | ok rows1 =>
        rw [hp] at h
        simp only [] at h
        obtain ⟨r, hr1, hriid, hrfn, hfresh, hload⟩ :=
          ParseFile_ok fs f rows i rows1 hp
        have hok : loadOkB fs f = true := by
          unfold loadOkB
          cases hl2 : loadSong fs f
          · exact absurd hl2 hload
          · rfl
        rcases ih (i + 1) rows1 errs rows2 errs2 bad h with
          ⟨hfn, hlen, hbad, hnd⟩
        subst hr1
        refine ⟨?_, ?_, ?_, ?_⟩
        · rw [hfn]
          simp [List.filter_cons, hok, hrfn]
        · rw [hlen]
          simp only [List.filter_cons, hok, if_true, List.length_append,
            List.length_cons, List.length_nil]
          omega
        · rw [hbad]
          simp [badIdxs, hok]
        · intro hndrows
          apply hnd
          simp only [List.map_append, List.map_cons, List.map_nil]
          rw [List.nodup_append]
          refine ⟨hndrows, by simp, ?_⟩
          intro a ha hb
          simp only [List.mem_cons, List.not_mem_nil, or_false] at hb
          subst hb
          exact hfresh ha
      | fail bf =>
        rw [hp] at h
        simp only [] at h
        obtain ⟨hl0, hbf⟩ := ParseFile_fail fs f rows i bf hp
        have hok : loadOkB fs f = false := by
          unfold loadOkB
          rw [hl0]
          rfl
        cases hrec : addLoop fs rest (i + 1) rows (errs ++ [msgUnable ++ bf]) with
        | none => rw [hrec] at h; exact absurd h (by simp)
        | some trip =>
          obtain ⟨rows2b, errs2b, badb⟩ := trip
          rw [hrec] at h
          simp only [Option.some_inj, Prod.mk.injEq] at h
          rcases h with ⟨h1, h2, h3⟩
          subst h1
          subst h2
          subst h3
          rcases ih (i + 1) rows (errs ++ [msgUnable ++ bf]) rows2b errs2b
            badb hrec with ⟨hfn, hlen, hbad, hnd⟩
          refine ⟨?_, ?_, ?_, hnd⟩
          · rw [hfn]
            simp [List.filter_cons, hok]
          · rw [hlen]
            simp [List.filter_cons, hok]
          · rw [hbad]
            simp [badIdxs, hok]

theorem badIdxs_ge (fs : FS) :
    ∀ (files : List String) (c : Nat) (j : Nat),
      j ∈ badIdxs fs files c → c ≤ j := by
  intro files
  induction files with
  | nil => intro c j hj; simp [badIdxs] at hj
  | cons f rest ih =>
    intro c j hj
    by_cases hok : loadOkB fs f = true
    · simp only [badIdxs, hok, if_true] at hj
      have := ih (c + 1) j hj
      omega
    · simp only [badIdxs, hok, if_false] at hj
      rcases List.mem_cons.mp hj with h0 | h1
      · omega
      · have := ih (c + 1) j h1
        omega

theorem badIdxs_nil (fs : FS) :
    ∀ (files : List String) (c : Nat), badIdxs fs files c = [] →
      files.filter (loadOkB fs) = files := by
  intro files
  induction files with
  | nil => intro c _; rfl
  | cons f rest ih =>
    intro c h
    by_cases hok : loadOkB fs f = true
    · simp only [badIdxs, hok, if_true] at h
      simp [List.filter_cons, hok, ih (c + 1) h]
    · simp only [badIdxs, hok, if_false] at h
      exact absurd h (by simp)

theorem pyFilterIdx_congr :
    ∀ (xs : List String) (idx1 idx2 : List Nat) (c : Nat),
      (∀ j, c ≤ j → (j ∈ idx1 ↔ j ∈ idx2)) →
      pyFilterIdx xs idx1 c = pyFilterIdx xs idx2 c := by
  intro xs
  induction xs with
  | nil => intro idx1 idx2 c _; rfl
  | cons x rest ih =>
    intro idx1 idx2 c hiff
    have hc : (c ∈ idx1) = (c ∈ idx2) := by
      have := hiff c (Nat.le_refl c)
      simp [this]
    have hrec := ih idx1 idx2 (c + 1) (fun j hj => hiff j (by omega))
    by_cases hm : c ∈ idx1
    · have hm2 : c ∈ idx2 := by rw [← hc]; exact hm
      simp [pyFilterIdx, hm, hm2, hrec]
    · have hm2 : c ∉ idx2 := by rw [← hc]; exact hm
      simp [pyFilterIdx, hm, hm2, hrec]

theorem pyFilterIdx_badIdxs (fs : FS) :
    ∀ (xs : List String) (c : Nat),
      pyFilterIdx xs (badIdxs fs xs c) c = xs.filter (loadOkB fs) := by
  intro xs
  induction xs with
  | nil => intro c; rfl
  | cons x rest ih =>
    intro c
    by_cases hok : loadOkB fs x = true
    · have hbd : badIdxs fs (x :: rest) c = badIdxs fs rest (c + 1) := by
        simp [badIdxs, hok]
      rw [hbd]
      have hc : c ∉ badIdxs fs rest (c + 1) := by
        intro hmem
        have := badIdxs_ge fs rest (c + 1) c hmem
        omega
      simp only [pyFilterIdx, hc, if_false]
      rw [ih (c + 1)]
      simp [List.filter_cons, hok]
    · have hbd : badIdxs fs (x :: rest) c =
          c :: badIdxs fs rest (c + 1) := by
        simp [badIdxs, hok]
      rw [hbd]
      have hc : c ∈ c :: badIdxs fs rest (c + 1) := by simp
      simp only [pyFilterIdx, hc, if_true]
      have hcong := pyFilterIdx_congr rest (c :: badIdxs fs rest (c + 1))
        (badIdxs fs rest (c + 1)) (c + 1) ?_
      · rw [hcong, ih (c + 1)]
        simp [List.filter_cons, hok]
      · intro j hj
        constructor
        · intro hmem
          rcases List.mem_cons.mp hmem with h0 | h1
          · omega
          · exact h1
        · intro hmem
          exact List.mem_cons_of_mem c hmem

theorem addFiles_first (files : List String) (s s2 : St)
    (ha : s.added_files = []) (hr : s.rows = [])
    (h : addFiles files s = some s2) :
    s2.added_files = files.filter (loadOkB s.fs) ∧
    s2.rows.length = s2.added_files.length ∧
    s2.rows.map Row.filename =
      (files.filter (loadOkB s.fs)).map pyBasename ∧
    (s2.rows.map Row.iid).Nodup := by
  unfold addFiles at h
  by_cases hemp : files.isEmpty = true
  · rw [if_pos hemp, Option.some_inj] at h
    subst h
    have hfe : files = [] := by
      cases files
      · rfl
      · simp at hemp
    subst hfe
    simp [ha, hr]
  rw [if_neg hemp] at h
  cases hal : addLoop s.fs files 0 s.rows s.errors with
  | none => rw [hal] at h; exact absurd h (by simp)
  | some trip =>
    obtain ⟨rows1, errs1, bad⟩ := trip
    rw [hal] at h
    simp only [] at h
    rcases addLoop_spec s.fs files 0 s.rows s.errors rows1 errs1 bad hal with
      ⟨hfn, hlen, hbad, hnd⟩
    rw [hr] at hfn hlen hnd
    simp only [List.map_nil, List.nil_append, List.length_nil,
      Nat.zero_add] at hfn hlen
    by_cases hb : bad.isEmpty = true
    · rw [if_pos hb, Option.some_inj] at h
      subst h
      have hbe : bad = [] := by
        cases bad
        · rfl
        · simp at hb
      have hall : files.filter (loadOkB s.fs) = files := by
        apply badIdxs_nil s.fs files 0
        rw [← hbad]
        exact hbe
      refine ⟨?_, ?_, ?_, ?_⟩
      · show files = _
        rw [hall]
      · show rows1.length = files.length
        rw [hlen, hall]
      · show rows1.map Row.filename = _
        exact hfn
      · exact hnd (by simp)
    · rw [if_neg hb, Option.some_inj] at h
      subst h
      have hpf : pyFilterIdx files bad 0 = files.filter (loadOkB s.fs) := by
        rw [hbad]
        exact pyFilterIdx_badIdxs s.fs files 0
      refine ⟨hpf, ?_, hfn, hnd (by simp)⟩
      show rows1.length = (pyFilterIdx files bad 0).length
      rw [hpf, hlen]

/-! ### Helper lemmas: single-index removal and characterizations -/

theorem pyFilterIdx_enumFrom :
    ∀ (xs : List String) (idx : List Nat) (c : Nat),
      pyFilterIdx xs idx c =
        ((xs.enumFrom c).filter (fun p => decide (p.1 ∉ idx))).map Prod.snd := by
  intro xs
  induction xs with
  | nil => intro idx c; rfl
  | cons x rest ih =>
    intro idx c
    by_cases hm : c ∈ idx
    · simp [pyFilterIdx, hm, List.enumFrom_cons, List.filter_cons,
        ih idx (c + 1)]
    · simp [pyFilterIdx, hm, List.enumFrom_cons, List.filter_cons,
        ih idx (c + 1)]

theorem pyFilterIdx_single_aux :
    ∀ (xs : List String) (j c : Nat),
      (j < c → pyFilterIdx xs [j] c = xs) ∧
      pyFilterIdx xs [c + j] c = xs.eraseIdx j := by
  intro xs
  induction xs with
  | nil =>
    intro j c
    exact ⟨fun _ => rfl, by simp [pyFilterIdx, List.eraseIdx]⟩
  | cons x rest ih =>
    intro j c
    constructor
    · intro hj
      have hne : c ∉ [j] := by
        simp only [List.mem_singleton]
        omega
      simp only [pyFilterIdx, hne, if_false]
      rw [(ih j (c + 1)).1 (by omega)]
    · cases j with
      | zero =>
        have hme : c ∈ [c + 0] := by simp
        simp only [pyFilterIdx, hme, if_true]
        rw [(ih (c + 0) (c + 1)).1 (by omega)]
        rfl
      | succ k =>
        have hne : c ∉ [c + (k + 1)] := by
          simp only [List.mem_singleton]
          omega
        simp only [pyFilterIdx, hne, if_false]
        have h2 := (ih k (c + 1)).2
        have harith : c + 1 + k = c + (k + 1) := by omega
        rw [harith] at h2
        rw [h2]
        rfl

theorem pyFilterIdx_single (xs : List String) (i : Nat) :
    pyFilterIdx xs [i] 0 = xs.eraseIdx i := by
  have := (pyFilterIdx_single_aux xs i 0).2
  simpa using this

theorem treeDelete_at :
    ∀ (rows : List Row) (i : Nat) (hlt : i < rows.length),
      (rows.map Row.iid).Nodup →
      treeDelete rows (rows.get ⟨i, hlt⟩).iid = some (rows.eraseIdx i) := by
  intro rows
  induction rows with
  | nil => intro i hlt; simp at hlt
  | cons r rest ih =>
    intro i hlt hnd
    cases i with
    | zero =>
      simp only [List.get, treeDelete, if_pos rfl]
      rfl
    | succ k =>
      have hk : k < rest.length := by
        simp only [List.length_cons] at hlt
        omega
      have htgt : ((r :: rest).get ⟨k + 1, hlt⟩) = rest.get ⟨k, hk⟩ := rfl
      rw [htgt]
      have hmem : (rest.get ⟨k, hk⟩).iid ∈ rest.map Row.iid := by
        exact List.mem_map.mpr ⟨rest.get ⟨k, hk⟩, List.get_mem rest k hk, rfl⟩
      have hnd2 := hnd
      simp only [List.map_cons, List.nodup_cons] at hnd2
      obtain ⟨hrnot, hndrest⟩ := hnd2
      have hne : ¬ r.iid = (rest.get ⟨k, hk⟩).iid := by
        intro heq
        rw [heq] at hrnot
        exact hrnot hmem
      simp only [treeDelete, hne, if_false]
      rw [ih k hk hndrest]
      rfl

theorem addFiles_fs (files : List String) (s s2 : St)
    (h : addFiles files s = some s2) : s2.fs = s.fs := by
  unfold addFiles at h
  by_cases hemp : files.isEmpty = true
  · rw [if_pos hemp, Option.some_inj] at h
    subst h
    rfl
  rw [if_neg hemp] at h
  cases hal : addLoop s.fs files 0 s.rows s.errors with
  | none => rw [hal] at h; exact absurd h (by simp)
  | some trip =>
    obtain ⟨rows1, errs1, bad⟩ := trip
    rw [hal] at h
    simp only [] at h
    by_cases hb : bad.isEmpty = true
    · rw [if_pos hb, Option.some_inj] at h
      subst h
      rfl
    · rw [if_neg hb, Option.some_inj] at h
      subst h
      rfl

/-! ### Claim theorems -/

/-- C1 (counterexample): the length invariant `len(added_files) ==
len(display rows)` does *not* hold after every operation completes.  A
second `AddFiles` call replaces the file-path list by the new
selection's survivors while the treeview keeps the old rows: after
loading `a.flac` and then selecting `b.txt` (which fails) together
with `c.flac`, the operation completes with one path but two rows. -/
theorem c1_counterexample :
    addFiles [fileA] (stInit fsC1) = some stC1a ∧
    addFiles [fileB, fileC] stC1a = some stC1b ∧
    ¬ stC1b.added_files.length = stC1b.rows.length :=
  ⟨rfl, rfl, by decide⟩

/-- C1 (amended): in any state with matching list lengths and distinct
row identifiers (as every state the GUI actually reaches has), every
operation of the component that completes preserves the invariant --
with `AddFiles` restricted to a first load (no display rows present);
a later `AddFiles` call can break the invariant, as the counterexample
shows. -/
theorem c1_invariant_amended (s : St) (hg : goodSt s) :
    (∀ (files : List String) (s2 : St), s.rows = [] →
      addFiles files s = some s2 → goodSt s2) ∧
    (∀ (ans : Bool) (idx : List Nat) (s2 : St),
      removeFiles ans idx s = some s2 → goodSt s2) ∧
    (∀ (ev : EntryVars) (tag : String) (ans : Bool) (s2 : St),
      sendData ev tag ans s = some s2 → goodSt s2) ∧
    (∀ (ev : EntryVars) (ansF : Nat → Bool) (s2 : St),
      updateAll ev ansF s = some s2 → goodSt s2) ∧
    (∀ (ask : String) (ans : Bool) (s2 : St),
      copyTracklist ask ans s = some s2 → goodSt s2) ∧
    (∀ (ans : Bool) (s2 : St),
      copyTrackNumbers ans s = some s2 → goodSt s2) ∧
    (∀ (s2 : St), sortByTrackNumber s = some s2 → goodSt s2) ∧
    (∀ (nv : String) (row : Nat) (col : String) (ans : Bool) (s2 : St),
      updateField nv row col ans s = some s2 → goodSt s2) := by
  refine ⟨?_, ?_, ?_, ?_, ?_, ?_, ?_, ?_⟩
  · intro files s2 hr h
    have ha : s.added_files = [] := by
      have h1 := hg.1
      unfold lenInv at h1
      rw [hr] at h1
      simp only [List.length_nil] at h1
      exact List.length_eq_zero.mp h1
    rcases addFiles_first files s s2 ha hr h with ⟨_, h2, _, h4⟩
    exact ⟨h2.symm, h4⟩
  · intro ans idx s2 h
    exact removeFiles_good ans idx s s2 hg h
  · intro ev tag ans s2 h
    exact sendData_good ev tag ans s s2 hg h
  · intro ev ansF s2 h
    exact updateAll_good ev ansF s s2 hg h
  · intro ask ans s2 h
    exact copyTracklist_good ask ans s s2 hg h
  · intro ans s2 h
    exact copyTrackNumbers_good ans s s2 hg h
  · intro s2 h
    exact sortByTrackNumber_good s s2 hg h
  · intro nv row col ans s2 h
    exact updateField_good nv row col ans s s2 hg h

/-- C1 (witness): the amended invariant theorem applied to a concrete
sort on a loaded three-file state. -/
theorem c1_invariant_witness : goodSt stC7b :=
  (c1_invariant_amended stC7 (by decide)).2.2.2.2.2.2.1 stC7b rfl

/-- C2 (counterexample): over a *sequence* of `AddFiles` calls the
file-path list does not end up containing the successfully loaded
paths: after loading `a.flac` and then selecting only the failing
`b.txt`, the list is empty while one display row remains. -/
theorem c2_counterexample :
    addFiles [fileA] (stInit fsC1) = some stC1a ∧
    addFiles [fileB] stC1a = some stC2b ∧
    stC2b.added_files = [] ∧
    stC2b.rows.length = 1 ∧
    ¬ stC2b.added_files.length = stC2b.rows.length :=
  ⟨rfl, rfl, rfl, rfl, by decide⟩

/-- C2 (amended): for a *single* `AddFiles` call from a state with no
loaded files, the resulting file-path list is exactly the successfully
loaded paths in original selection order, the display row count equals
the file-list length, and each created row corresponds to a loaded
path (no row is created for a failed path). -/
theorem c2_addfiles_single (s : St) (files : List String) (s2 : St)
    (ha : s.added_files = []) (hr : s.rows = [])
    (h : addFiles files s = some s2) :
    s2.added_files = files.filter (loadOkB s.fs) ∧
    s2.rows.length = s2.added_files.length ∧
    s2.rows.map Row.filename =
      (files.filter (loadOkB s.fs)).map pyBasename := by
  rcases addFiles_first files s s2 ha hr h with ⟨h1, h2, h3, _⟩
  exact ⟨h1, h2, h3⟩

/-- C2 (witness): a single mixed-selection `AddFiles` call on a fresh
window keeps exactly the loadable path. -/
theorem c2_witness :
    stC2w.added_files = List.filter (loadOkB fsC1) [fileA, fileB] ∧
    stC2w.rows.length = stC2w.added_files.length ∧
    stC2w.rows.map Row.filename =
      (List.filter (loadOkB fsC1) [fileA, fileB]).map pyBasename :=
  c2_addfiles_single (stInit fsC1) [fileA, fileB] stC2w rfl rfl rfl

/-- C3: `RemoveFiles` on a good state: declining the confirmation
leaves the state exactly unchanged; confirming removes exactly the
listed positions from the file-path list (keeping the rest in order)
and leaves the two lists the same length; for a single index `i` the
result is precisely `eraseIdx i` on both the file-path list and the
display rows. -/
theorem c3_removefiles_correct (s : St) (hg : goodSt s) :
    (∀ (idx : List Nat), removeFiles false idx s = some s) ∧
    (∀ (idx : List Nat) (s2 : St), removeFiles true idx s = some s2 →
      s2.added_files =
        ((s.added_files.enum.filter (fun p => decide (p.1 ∉ idx))).map
          Prod.snd) ∧
      s2.rows.length = s2.added_files.length) ∧
    (∀ (i : Nat) (s2 : St), i < s.added_files.length →
      removeFiles true [i] s = some s2 →
      s2.added_files = s.added_files.eraseIdx i ∧
      s2.rows = s.rows.eraseIdx i) := by
  refine ⟨?_, ?_, ?_⟩
  · intro idx
    exact removeFiles_decline s idx
  · intro idx s2 h
    have hgood := removeFiles_good true idx s s2 hg h
    unfold removeFiles at h
    rw [if_neg (by simp)] at h
    cases hgi : getIids s.rows idx with
    | none => rw [hgi] at h; exact absurd h (by simp)
    | some iids =>
      rw [hgi] at h
      simp only [] at h
      cases hdel : deleteIids s.rows iids with
      | none => rw [hdel] at h; exact absurd h (by simp)
      | some rows1 =>
        rw [hdel] at h
        simp only [Option.some_inj] at h
        subst h
        constructor
        · show pyFilterIdx s.added_files idx 0 = _
          rw [pyFilterIdx_enumFrom s.added_files idx 0]
          rfl
        · exact hgood.1.symm
  · intro i s2 hi h
    unfold removeFiles at h
    rw [if_neg (by simp)] at h
    have hlt : i < s.rows.length := by
      have h1 := hg.1
      unfold lenInv at h1
      omega
    have hgi : getIids s.rows [i] =
        some [(s.rows.get ⟨i, hlt⟩).iid] := by
      simp only [getIids, List.get?_eq_get hlt]
    rw [hgi] at h
    simp only [] at h
    have hdel := treeDelete_at s.rows i hlt hg.2
    have hdi : deleteIids s.rows [(s.rows.get ⟨i, hlt⟩).iid] =
        some (s.rows.eraseIdx i) := by
      simp only [deleteIids, hdel]
    rw [hdi] at h
    simp only [Option.some_inj] at h
    subst h
    exact ⟨pyFilterIdx_single s.added_files i, rfl⟩

/-- C3 (witness): a confirmed `RemoveFiles([0])` on a two-file state
erases position 0 from both lists. -/
theorem c3_witness :
    stC3w.added_files = stC3.added_files.eraseIdx 0 ∧
    stC3w.rows = stC3.rows.eraseIdx 0 :=
  (c3_removefiles_correct stC3 (by decide)).2.2 0 stC3w (by decide) rfl

/-- C4: `CopyTrackNumbers` accumulates the 1-based loop counter rather
than the positional index of a failed write: with the unwritable
`bad.mp3` at position 0 and the writable `good.flac` at position 1,
the accumulated list is `[1]`, so the confirmed removal deletes the
*healthy* file and keeps the failing one. -/
theorem c4_copytracknumbers_wrong_index :
    copyTrackNumbers true stC4 = some stC4r ∧
    stC4r.added_files = [fileBad] ∧
    ¬ stC4r.added_files = [fileGood] :=
  ⟨rfl, rfl, by decide⟩

/-- C5: `CopyTracklist` proceeds even when the user answers "no" to the
confirmation prompt: `askquestion` returns the string `"no"`, which is
truthy under the source's `if not ask:` test, so the Title is
overwritten and the state mutated anyway. -/
theorem c5_copytracklist_ignores_decline :
    copyTracklist ansNo true stC5 = some stC5r ∧
    ¬ stC5r = stC5 ∧
    fsGet stC5r.fs fileA = some [(tagTitle, ["Intro"])] :=
  ⟨rfl, by decide, rfl⟩

/-- C6: at 0-based index 9 -- the 1-based position 10 -- the source
strips only 3 leading characters from the pending title (its test is
`index < 10` on the 0-based counter), so the numbered title
`"10. Foo"` is written as `" Foo"` instead of the `"Foo"` the
4-character rule at position 10 would produce. -/
theorem c6_title_strip_offbyone :
    UpdateTrackTitle fsC6 fileA titleTen 0 9 =
      (TTRes.ok strSpaceFoo, [(fileA, [(tagTitle, [strSpaceFoo])])]) ∧
    ¬ strSpaceFoo = strFoo :=
  ⟨rfl, by decide⟩

/-- C7: `SortByTrackNumber` is not idempotent on the file-path list.
Sorting the `[3, 1, 2]` state once gives display order `[1, 2, 3]`
with the file list permuted identically; sorting again leaves the
display order unchanged but permutes the file list a second time
through the rows' stale `song<i>` insertion indices. -/
theorem c7_sort_not_idempotent :
    sortByTrackNumber stC7 = some stC7b ∧
    sortByTrackNumber stC7b = some stC7c ∧
    stC7c.rows = stC7b.rows ∧
    ¬ stC7c.added_files = stC7b.added_files :=
  ⟨rfl, rfl, rfl, by decide⟩

/-- C8: if any display row's TrackNumber cell fails to parse as an
integer, `SortByTrackNumber` aborts entirely: exactly one error is
reported and nothing else in the state changes (no reorder, no
removal). -/
theorem c8_sort_abort (s : St) (r : Row) (hr : r ∈ s.rows)
    (hp : pyInt r.trackNo = none) :
    sortByTrackNumber s =
      some { s with errors := s.errors ++ [sortErrMsg] } := by
  unfold sortByTrackNumber
  rw [keyRows_none s.rows r hr hp]

/-- C8 (witness): the abort on a one-row state whose track cell holds
`"x"`. -/
theorem c8_witness :
    sortByTrackNumber stC8 =
      some { stC8 with errors := stC8.errors ++ [sortErrMsg] } :=
  c8_sort_abort stC8 rowC8 (by decide) (by decide)

/-- C9: failures are *not* always converted to user-facing notices:
after a partial-failure `AddFiles` (the unsupported `b.txt` between
two good files leaves rows with insertion indices 0 and 2 over a
2-element file list), `SortByTrackNumber`'s file-list rebuild indexes
position 2 of that 2-element list -- an uncaught out-of-range fault,
modelled as `none`. -/
theorem c9_sort_uncaught_fault :
    addFiles [fileA, fileB, fileC] (stInit fsC9) = some stC9a ∧
    sortByTrackNumber stC9a = none :=
  ⟨rfl, rfl⟩

/-- C10: loading is read-only -- `ParseFile` never sets a tag or calls
`Save`, so `AddFiles` leaves the on-disk tag store exactly as it
was. -/
theorem c10_addfiles_readonly (files : List String) (s s2 : St)
    (h : addFiles files s = some s2) : s2.fs = s.fs :=
  addFiles_fs files s s2 h

/-- C10 (witness): a concrete `AddFiles` call leaves the store
untouched. -/
theorem c10_witness :
    addFiles [fileA] (stInit fsC1) = some stC1a ∧
    stC1a.fs = (stInit fsC1).fs :=
  ⟨rfl, c10_addfiles_readonly [fileA] (stInit fsC1) stC1a rfl⟩
